import Mathlib

/-!
Verification of the ledger line classifier in `YaW.py` (`process_txt_file`).

The classifier reads a list of text lines and, per line: strips whitespace,
skips blanks, rejects lines with more than one currency marker, matches the
two anchored patterns
  pattern_full  = (.+?)\s+([\d.]+(?:kg|pcs|set|p)?\.?)\s*\$([\d.]+)
  pattern_short = (.+?)\s*\$([\d.]+)
and accumulates rows, counters, a grand total and diagnostic strings.

Modelling notes.
* Character classes: the Python patterns are Unicode-aware; we model the
  whitespace class and `str.strip` with the six ASCII whitespace characters
  and the digit class with the ASCII digits, which covers every input the
  specification and its scenarios mention.
* The two regular expressions are embedded as specialized backtracking
  matchers that reproduce the engine's search order exactly: the lazy group
  `(.+?)` tries shorter names first (its `.` never matches a newline), greedy
  pieces try longer matches first, and the alternation `kg|pcs|set|p` is
  tried left to right.  `re.match` anchors at the start only.
* `float(price)` is modelled as an exact rational parse (`pyFloat`).  In the
  program the argument is always a nonempty string of digits and dots
  (the capture class of the price group), and on that domain the model
  agrees with Python: success iff at most one dot and at least one digit.
* The mutable loop state (row cache, counters, error list) is threaded as an
  explicit `AggregateResult` record through a fold over the lines.
-/

namespace YaW

/-- ASCII whitespace, modelling the `\s` class and `str.strip`. -/
def isPySpace (c : Char) : Bool :=
  c = ' ' || c = '\t' || c = '\n' || c = '\r' || c = '\x0b' || c = '\x0c'

/-- The character class `[\d.]` of the quantity and price groups. -/
def isDigitDot (c : Char) : Bool :=
  c.isDigit || c = '.'

/-- Python `str.strip()`: drop leading and trailing whitespace. -/
def pyStrip (s : String) : String :=
  ⟨((s.data.dropWhile isPySpace).reverse.dropWhile isPySpace).reverse⟩

/-- Value of a string of decimal digits. -/
def digitsVal (ds : List Char) : Nat :=
  ds.foldl (fun n c => 10 * n + (c.toNat - '0'.toNat)) 0

/-- Whether `float` accepts a digits-and-dots string: nonempty, at most one
dot, at least one digit. -/
def pyFloatOk (cs : List Char) : Bool :=
  !cs.isEmpty && cs.all isDigitDot && decide (cs.count '.' ≤ 1) && cs.any Char.isDigit

/-- Exact value of a digits-and-dots literal: integer part plus fractional
part scaled by a power of ten. -/
def ratOfDigits (cs : List Char) : ℚ :=
  let ip := cs.takeWhile (· ≠ '.')
  let fp := (cs.dropWhile (· ≠ '.')).drop 1
  (digitsVal ip : ℚ) + (digitsVal fp : ℚ) / ((10 : ℚ) ^ fp.length)

/-- Model of Python `float(s)` on the strings the program feeds it (the
price group `[\d.]+`): `some` of the exact rational value on valid decimal
literals over digits and dots, `none` when `float` raises. -/
def pyFloat (s : String) : Option ℚ :=
  if pyFloatOk s.data then some (ratOfDigits s.data) else none

/-- Matcher for the regex fragment `\s*\$([\d.]+)`: skip whitespace, require
the currency marker, capture the maximal nonempty run of digits and dots.
(The greedy `\s*` never needs to backtrack: `$` is not a whitespace
character.) -/
def dollarPrice (cs : List Char) : Option String :=
  match cs.dropWhile isPySpace with
  | [] => none
  | c :: rest =>
    if c = '$' then
      if rest.takeWhile isDigitDot = [] then none
      else some ⟨rest.takeWhile isDigitDot⟩
    else none

/-- Backtracking loop of `pattern_short = (.+?)\s*\$([\d.]+)`: the lazy name
group grows one character at a time (never across a newline) until the tail
fragment matches. -/
def matchShortAux (acc : List Char) : List Char → Option (String × String)
  | [] => none
  | c :: rest =>
    if c = '\n' then none
    else
      match dollarPrice rest with
      | some p => some (⟨acc ++ [c]⟩, p)
      | none => matchShortAux (acc ++ [c]) rest

/-- `pattern_short.match`: anchored at the start, groups (name, price). -/
def matchShort (cs : List Char) : Option (String × String) :=
  matchShortAux [] cs

/-- Ordered candidates of the optional unit `(?:kg|pcs|set|p)?`: each
alternative that is literally present, left to right, then the empty
choice.  Pairs are (consumed characters, remaining input). -/
def suffixOpts (rest : List Char) : List (List Char × List Char) :=
  (if rest.take 2 = ['k', 'g'] then [(['k', 'g'], rest.drop 2)] else []) ++
  (if rest.take 3 = ['p', 'c', 's'] then [(['p', 'c', 's'], rest.drop 3)] else []) ++
  (if rest.take 3 = ['s', 'e', 't'] then [(['s', 'e', 't'], rest.drop 3)] else []) ++
  (if rest.take 1 = ['p'] then [(['p'], rest.drop 1)] else []) ++
  [([], rest)]

/-- Ordered candidates of the greedy optional dot `\.?`. -/
def dotOpts (rest : List Char) : List (List Char × List Char) :=
  (if rest.take 1 = ['.'] then [(['.'], rest.drop 1)] else []) ++ [([], rest)]

/-- With the `[\d.]+` part of the quantity fixed, try the unit and dot
options in engine order, then the price fragment; on success return
(quantity group, price group). -/
def qtyTry (digits rest : List Char) : Option (String × String) :=
  (suffixOpts rest).findSome? fun sfx =>
    (dotOpts sfx.2).findSome? fun dot =>
      match dollarPrice dot.2 with
      | some p => some (⟨digits ++ sfx.1 ++ dot.1⟩, p)
      | none => none

/-- Greedy search for the `[\d.]+` core of the quantity group: try the `k`
longest candidate lengths, longest first. -/
def qtySearch : Nat → List Char → Option (String × String)
  | 0, _ => none
  | k + 1, afterSp =>
    match qtyTry (afterSp.take (k + 1)) (afterSp.drop (k + 1)) with
    | some r => some r
    | none => qtySearch k afterSp

/-- Matcher for the tail `\s+([\d.]+(?:kg|pcs|set|p)?\.?)\s*\$([\d.]+)` of
`pattern_full`: at least one whitespace character (greedy, and no backtrack
can help since `[\d.]` rejects whitespace), then the quantity search. -/
def fullTail (cs : List Char) : Option (String × String) :=
  match cs with
  | [] => none
  | c :: _ =>
    if isPySpace c then
      qtySearch ((cs.dropWhile isPySpace).takeWhile isDigitDot).length (cs.dropWhile isPySpace)
    else none

/-- Backtracking loop of `pattern_full`: the lazy name group grows one
character at a time (never across a newline) until the tail matches. -/
def matchFullAux (acc : List Char) : List Char → Option (String × String × String)
  | [] => none
  | c :: rest =>
    if c = '\n' then none
    else
      match fullTail rest with
      | some qp => some (⟨acc ++ [c]⟩, qp.1, qp.2)
      | none => matchFullAux (acc ++ [c]) rest

/-- `pattern_full.match`: anchored at the start, groups (name, qty, price). -/
def matchFull (cs : List Char) : Option (String × String × String) :=
  matchFullAux [] cs

/-- Diagnostic for a line with more than one currency marker
(source: `f"[Line {idx}] ❌ 含有多个 $，无法处理：{text}"`). -/
def multiDollarMsg (idx : Nat) (text : String) : String :=
  "[Line " ++ toString idx ++ "] ❌ 含有多个 $，无法处理：" ++ text

/-- Diagnostic for a line with a currency marker that matches neither
pattern (source: `f"[Line {idx}] ❌ 无法解析：{text}"`). -/
def unparseMsg (idx : Nat) (text : String) : String :=
  "[Line " ++ toString idx ++ "] ❌ 无法解析：" ++ text

/-- Diagnostic for an item row whose price fails to parse
(source: `f"[Line {idx}] ⚠️ 价格解析失败：{price}"`). -/
def priceFailMsg (idx : Nat) (price : String) : String :=
  "[Line " ++ toString idx ++ "] ⚠️ 价格解析失败：" ++ price

/-- One output row: a section header or a priced entry (the `excel_rows`
cache entries `('category', name)` and `('item', name, qty, price)`). -/
inductive Row where
  | category (label : String)
  | item (name qty price : String)
  deriving DecidableEq, Repr

/-- The classifier's accumulated result: rows, counters, grand total and
diagnostics. -/
structure AggregateResult where
  rows : List Row
  totalLines : Nat
  validLines : Nat
  grandTotal : ℚ
  errors : List String
  deriving DecidableEq, Repr

/-- The state at the start of the loop: everything empty or zero. -/
def initResult : AggregateResult :=
  ⟨[], 0, 0, 0, []⟩

/-- The item branch of the loop body: append the stripped groups as a row,
then try `float(price)` — on success accumulate, on failure record the
diagnostic. -/
def itemLine (st : AggregateResult) (idx : Nat) (name qty price : String) : AggregateResult :=
  let st2 := { st with rows := st.rows ++ [Row.item (pyStrip name) (pyStrip qty) (pyStrip price)] }
  match pyFloat price with
  | some v => { st2 with grandTotal := st2.grandTotal + v, validLines := st2.validLines + 1 }
  | none => { st2 with errors := st2.errors ++ [priceFailMsg idx price] }

/-- The loop body of `process_txt_file` for one line, 1-indexed. -/
def processLine (st : AggregateResult) (idx : Nat) (line : String) : AggregateResult :=
  let st1 := { st with totalLines := st.totalLines + 1 }
  let text := pyStrip line
  if text = "" then st1
  else if 1 < text.data.count '$' then
    { st1 with errors := st1.errors ++ [multiDollarMsg idx text] }
  else
    match matchFull text.data, matchShort text.data with
    | some (n, q, p), _ => itemLine st1 idx n q p
    | none, some (n, p) => itemLine st1 idx n "" p
    | none, none =>
      if '$' ∈ text.data then
        { st1 with errors := st1.errors ++ [unparseMsg idx text] }
      else
        { st1 with rows := st1.rows ++ [Row.category text] }

/-- The loop over the lines, carrying the 1-based index. -/
def classifyFrom (st : AggregateResult) (idx : Nat) : List String → AggregateResult
  | [] => st
  | l :: ls => classifyFrom (processLine st idx l) (idx + 1) ls

/-- The whole classification pass of `process_txt_file`. -/
def classify (lines : List String) : AggregateResult :=
  classifyFrom initResult 1 lines

/-! Derived definitions used to state the properties. -/

/-- The price group the classifier extracts from a (stripped) line, with the
source's full-before-short precedence. -/
def linePrice (t : String) : Option String :=
  match matchFull t.data with
  | some g => some g.2.2
  | none =>
    match matchShort t.data with
    | some g => some g.2
    | none => none

/-- The parsed price an emitted row contributes, if any. -/
def rowPrice : Row → Option ℚ
  | Row.category _ => none
  | Row.item _ _ p => pyFloat p

/-- Number of `Row.item` entries. -/
def itemCount (rows : List Row) : Nat :=
  rows.countP fun r => match r with | Row.item _ _ _ => true | _ => false

/-- Shape of the diagnostics the code actually records for line `idx` with
raw content `line`: one of the three templates of the source, with the
stripped text, or the extracted price group, interpolated. -/
def codeDiagnostic (idx : Nat) (line : String) (e : String) : Prop :=
  e = multiDollarMsg idx (pyStrip line) ∨
  e = unparseMsg idx (pyStrip line) ∨
  ∃ p, linePrice (pyStrip line) = some p ∧ e = priceFailMsg idx p

/-- Modelled from the spec's words: every diagnostic is exactly one of the
three templates "[Line {idx}] multiple currency markers, cannot process:
{text}", "[Line {idx}] unable to parse: {text}" and "[Line {idx}] price
parse failed: {price}", with `idx` the 1-based line number and `text` the
stripped line text.  (Stated for comparison with what the code records.) -/
def specDiagnosticOk (lines : List String) (e : String) : Prop :=
  ∃ j, 1 ≤ j ∧ j ≤ lines.length ∧
    (e = "[Line " ++ toString j ++ "] multiple currency markers, cannot process: " ++
        pyStrip (lines.getD (j - 1) "") ∨
     e = "[Line " ++ toString j ++ "] unable to parse: " ++ pyStrip (lines.getD (j - 1) "") ∨
     ∃ p, e = "[Line " ++ toString j ++ "] price parse failed: " ++ p)

/-! Character and string facts. -/

lemma isDigitDot_not_space {c : Char} (h : isDigitDot c = true) : isPySpace c = false := by
  cases hsp : isPySpace c
  · rfl
  · exfalso
    have hc : c = ' ' ∨ c = '\t' ∨ c = '\n' ∨ c = '\r' ∨ c = '\x0b' ∨ c = '\x0c' := by
      simpa [isPySpace, or_assoc] using hsp
    rcases hc with h1 | h1 | h1 | h1 | h1 | h1 <;> subst h1 <;> exact absurd h (by decide)

lemma dropWhile_eq_self_of {p : Char → Bool} {l : List Char} (h : ∀ c ∈ l, p c = false) :
    l.dropWhile p = l := by
  cases l with
  | nil => rfl
  | cons c cs => simp [List.dropWhile_cons, h c (by simp)]

lemma pyStrip_eq_self {s : String} (h : ∀ c ∈ s.data, isDigitDot c = true) : pyStrip s = s := by
  have hns : ∀ c ∈ s.data, isPySpace c = false := fun c hc => isDigitDot_not_space (h c hc)
  unfold pyStrip
  rw [dropWhile_eq_self_of hns,
    dropWhile_eq_self_of (fun c hc => hns c (List.mem_reverse.mp hc)),
    List.reverse_reverse]

/-! The price group of either pattern is a nonempty run of digits and dots. -/

lemma dollarPrice_spec {cs : List Char} {p : String} (h : dollarPrice cs = some p) :
    p.data ≠ [] ∧ ∀ c ∈ p.data, isDigitDot c = true := by
  unfold dollarPrice at h
  split at h
  · exact absurd h (by simp)
  · split at h
    · split at h
      · exact absurd h (by simp)
      · next hrun =>
        injection h with h
        subst h
        exact ⟨hrun, fun c hc => List.mem_takeWhile_imp hc⟩
    · exact absurd h (by simp)

lemma matchShortAux_price : ∀ (cs acc : List Char) (r : String × String),
    matchShortAux acc cs = some r → ∃ rs, dollarPrice rs = some r.2 := by
  intro cs
  induction cs with
  | nil => intro acc r h; exact absurd h (by simp [matchShortAux])
  | cons c rest ih =>
    intro acc r h
    unfold matchShortAux at h
    by_cases hn : c = '\n'
    · simp [hn] at h
    · rw [if_neg hn] at h
      rcases hd : dollarPrice rest with _ | p
      · rw [hd] at h
        exact ih _ _ h
      · rw [hd] at h
        injection h with h
        exact ⟨rest, by rw [← h]; exact hd⟩

lemma matchShort_price {cs : List Char} {r : String × String} (h : matchShort cs = some r) :
    ∃ rs, dollarPrice rs = some r.2 :=
  matchShortAux_price cs [] r h

lemma qtyTry_price {digits rest : List Char} {r : String × String} (h : qtyTry digits rest = some r) :
    ∃ rs, dollarPrice rs = some r.2 := by
  unfold qtyTry at h
  obtain ⟨sfx, _, h2⟩ := List.exists_of_findSome?_eq_some h
  obtain ⟨dot, _, h3⟩ := List.exists_of_findSome?_eq_some h2
  rcases hd : dollarPrice dot.2 with _ | p
  · rw [hd] at h3
    exact absurd h3 (by simp)
  · rw [hd] at h3
    injection h3 with h3
    exact ⟨dot.2, by rw [← h3]; exact hd⟩

lemma qtySearch_price : ∀ (k : Nat) (afterSp : List Char) (r : String × String),
    qtySearch k afterSp = some r → ∃ rs, dollarPrice rs = some r.2 := by
  intro k
  induction k with
  | zero => intro a r h; exact absurd h (by simp [qtySearch])
  | succ k ih =>
    intro a r h
    unfold qtySearch at h
    rcases ht : qtyTry (a.take (k + 1)) (a.drop (k + 1)) with _ | r'
    · rw [ht] at h
      exact ih _ _ h
    · rw [ht] at h
      injection h with h
      subst h
      exact qtyTry_price ht

lemma fullTail_price {cs : List Char} {r : String × String} (h : fullTail cs = some r) :
    ∃ rs, dollarPrice rs = some r.2 := by
  unfold fullTail at h
  rcases cs with _ | ⟨c, rest⟩
  · exact absurd h (by simp)
  · dsimp only at h
    by_cases hs : isPySpace c = true
    · rw [if_pos hs] at h
      exact qtySearch_price _ _ _ h
    · rw [if_neg hs] at h
      exact absurd h (by simp)

lemma matchFullAux_price : ∀ (cs acc : List Char) (r : String × String × String),
    matchFullAux acc cs = some r → ∃ rs, dollarPrice rs = some r.2.2 := by
  intro cs
  induction cs with
  | nil => intro acc r h; exact absurd h (by simp [matchFullAux])
  | cons c rest ih =>
    intro acc r h
    unfold matchFullAux at h
    by_cases hn : c = '\n'
    · simp [hn] at h
    · rw [if_neg hn] at h
      rcases hd : fullTail rest with _ | qp
      · rw [hd] at h
        exact ih _ _ h
      · rw [hd] at h
        injection h with h
        obtain ⟨rs, hrs⟩ := fullTail_price hd
        exact ⟨rs, by rw [← h]; exact hrs⟩

lemma matchFull_price {cs : List Char} {r : String × String × String} (h : matchFull cs = some r) :
    ∃ rs, dollarPrice rs = some r.2.2 :=
  matchFullAux_price cs [] r h

lemma linePrice_spec {t p : String} (h : linePrice t = some p) :
    p.data ≠ [] ∧ ∀ c ∈ p.data, isDigitDot c = true := by
  unfold linePrice at h
  rcases hF : matchFull t.data with _ | g
  · rw [hF] at h
    rcases hS : matchShort t.data with _ | g
    · rw [hS] at h
      exact absurd h (by simp)
    · rw [hS] at h
      injection h with h
      subst h
      obtain ⟨rs, hrs⟩ := matchShort_price hS
      exact dollarPrice_spec hrs
  · rw [hF] at h
    injection h with h
    subst h
    obtain ⟨rs, hrs⟩ := matchFull_price hF
    exact dollarPrice_spec hrs

lemma linePrice_strip {t p : String} (h : linePrice t = some p) : pyStrip p = p :=
  pyStrip_eq_self (linePrice_spec h).2

/-! The six possible outcomes of one loop iteration. -/

lemma processLine_shape (st : AggregateResult) (idx : Nat) (l : String) :
    processLine st idx l = { st with totalLines := st.totalLines + 1 } ∨
    processLine st idx l =
      { st with
        totalLines := st.totalLines + 1
        errors := st.errors ++ [multiDollarMsg idx (pyStrip l)] } ∨
    processLine st idx l =
      { st with
        totalLines := st.totalLines + 1
        rows := st.rows ++ [Row.category (pyStrip l)] } ∨
    processLine st idx l =
      { st with
        totalLines := st.totalLines + 1
        errors := st.errors ++ [unparseMsg idx (pyStrip l)] } ∨
    (∃ p v, linePrice (pyStrip l) = some p ∧ pyFloat p = some v ∧
      ∃ n q, processLine st idx l =
        { st with
          totalLines := st.totalLines + 1
          rows := st.rows ++ [Row.item n q (pyStrip p)]
          validLines := st.validLines + 1
          grandTotal := st.grandTotal + v }) ∨
    (∃ p, linePrice (pyStrip l) = some p ∧ pyFloat p = none ∧
      ∃ n q, processLine st idx l =
        { st with
          totalLines := st.totalLines + 1
          rows := st.rows ++ [Row.item n q (pyStrip p)]
          errors := st.errors ++ [priceFailMsg idx p] }) := by
  by_cases h1 : pyStrip l = ""
  · exact Or.inl (by simp [processLine, h1])
  · by_cases h2 : 1 < (pyStrip l).data.count '$'
    · exact Or.inr (Or.inl (by simp [processLine, h1, h2]))
    · rcases hF : matchFull (pyStrip l).data with _ | ⟨n, q, p⟩
      · rcases hS : matchShort (pyStrip l).data with _ | ⟨n, p⟩
        · by_cases h3 : '$' ∈ (pyStrip l).data
          · exact Or.inr (Or.inr (Or.inr (Or.inl (by simp [processLine, h1, h2, hF, hS, h3]))))
          · exact Or.inr (Or.inr (Or.inl (by simp [processLine, h1, h2, hF, hS, h3])))
        · have hLP : linePrice (pyStrip l) = some p := by simp [linePrice, hF, hS]
          rcases hP : pyFloat p with _ | v
          · refine Or.inr (Or.inr (Or.inr (Or.inr (Or.inr
              ⟨p, hLP, hP, pyStrip n, pyStrip "", ?_⟩))))
            simp [processLine, itemLine, h1, h2, hF, hS, hP]
          · refine Or.inr (Or.inr (Or.inr (Or.inr (Or.inl
              ⟨p, v, hLP, hP, pyStrip n, pyStrip "", ?_⟩))))
            simp [processLine, itemLine, h1, h2, hF, hS, hP]
      · have hLP : linePrice (pyStrip l) = some p := by simp [linePrice, hF]
        rcases hP : pyFloat p with _ | v
        · refine Or.inr (Or.inr (Or.inr (Or.inr (Or.inr
            ⟨p, hLP, hP, pyStrip n, pyStrip q, ?_⟩))))
          simp [processLine, itemLine, h1, h2, hF, hP]
        · refine Or.inr (Or.inr (Or.inr (Or.inr (Or.inl
            ⟨p, v, hLP, hP, pyStrip n, pyStrip q, ?_⟩))))
          simp [processLine, itemLine, h1, h2, hF, hP]

lemma processLine_totalLines (st : AggregateResult) (idx : Nat) (l : String) :
    (processLine st idx l).totalLines = st.totalLines + 1 := by
  rcases processLine_shape st idx l with h | h | h | h | ⟨p, v, _, _, n, q, h⟩ | ⟨p, _, _, n, q, h⟩ <;>
    rw [h]

lemma classifyFrom_cons (st : AggregateResult) (idx : Nat) (l : String) (ls : List String) :
    classifyFrom st idx (l :: ls) = classifyFrom (processLine st idx l) (idx + 1) ls := rfl

lemma classifyFrom_totalLines : ∀ (ls : List String) (st : AggregateResult) (idx : Nat),
    (classifyFrom st idx ls).totalLines = st.totalLines + ls.length := by
  intro ls
  induction ls with
  | nil => intro st idx; simp [classifyFrom]
  | cons l ls ih =>
    intro st idx
    rw [classifyFrom_cons, ih, processLine_totalLines]
    simp [Nat.add_assoc, Nat.add_comm 1 ls.length]

lemma classifyFrom_append : ∀ (ls ex : List String) (st : AggregateResult) (idx : Nat),
    classifyFrom st idx (ls ++ ex) = classifyFrom (classifyFrom st idx ls) (idx + ls.length) ex := by
  intro ls
  induction ls with
  | nil => intro ex st idx; simp [classifyFrom]
  | cons l ls ih =>
    intro ex st idx
    rw [List.cons_append, classifyFrom_cons, ih, classifyFrom_cons]
    have : idx + 1 + ls.length = idx + (l :: ls).length := by simp; omega
    rw [this]

lemma processLine_rows (st : AggregateResult) (idx : Nat) (l : String) :
    ∃ d, (processLine st idx l).rows = st.rows ++ d := by
  rcases processLine_shape st idx l with h | h | h | h | ⟨p, v, _, _, n, q, h⟩ | ⟨p, _, _, n, q, h⟩ <;>
    rw [h]
  · exact ⟨[], by simp⟩
  · exact ⟨[], by simp⟩
  · exact ⟨[Row.category (pyStrip l)], rfl⟩
  · exact ⟨[], by simp⟩
  · exact ⟨[Row.item n q (pyStrip p)], rfl⟩
  · exact ⟨[Row.item n q (pyStrip p)], rfl⟩

lemma processLine_errors (st : AggregateResult) (idx : Nat) (l : String) :
    ∃ d, (processLine st idx l).errors = st.errors ++ d ∧ d.length ≤ 1 ∧
      ∀ e ∈ d, codeDiagnostic idx l e := by
  rcases processLine_shape st idx l with h | h | h | h | ⟨p, v, hLP, hP, n, q, h⟩ | ⟨p, hLP, hP, n, q, h⟩ <;>
    rw [h]
  · exact ⟨[], by simp, by simp, by simp⟩
  · refine ⟨[multiDollarMsg idx (pyStrip l)], rfl, by simp, ?_⟩
    intro e he
    rw [List.mem_singleton] at he
    subst he
    exact Or.inl rfl
  · exact ⟨[], by simp, by simp, by simp⟩
  · refine ⟨[unparseMsg idx (pyStrip l)], rfl, by simp, ?_⟩
    intro e he
    rw [List.mem_singleton] at he
    subst he
    exact Or.inr (Or.inl rfl)
  · exact ⟨[], by simp, by simp, by simp⟩
  · refine ⟨[priceFailMsg idx p], rfl, by simp, ?_⟩
    intro e he
    rw [List.mem_singleton] at he
    subst he
    exact Or.inr (Or.inr ⟨p, hLP, rfl⟩)

/-! Fold-level facts. -/

lemma classifyFrom_rows : ∀ (ls : List String) (st : AggregateResult) (idx : Nat),
    ∃ d, (classifyFrom st idx ls).rows = st.rows ++ d := by
  intro ls
  induction ls with
  | nil => intro st idx; exact ⟨[], by simp [classifyFrom]⟩
  | cons l ls ih =>
    intro st idx
    obtain ⟨d1, h1⟩ := processLine_rows st idx l
    obtain ⟨d2, h2⟩ := ih (processLine st idx l) (idx + 1)
    exact ⟨d1 ++ d2, by rw [classifyFrom_cons, h2, h1, List.append_assoc]⟩

lemma classifyFrom_errs : ∀ (ls : List String) (st : AggregateResult) (idx : Nat),
    ∃ d, (classifyFrom st idx ls).errors = st.errors ++ d := by
  intro ls
  induction ls with
  | nil => intro st idx; exact ⟨[], by simp [classifyFrom]⟩
  | cons l ls ih =>
    intro st idx
    obtain ⟨d1, h1, _, _⟩ := processLine_errors st idx l
    obtain ⟨d2, h2⟩ := ih (processLine st idx l) (idx + 1)
    exact ⟨d1 ++ d2, by rw [classifyFrom_cons, h2, h1, List.append_assoc]⟩

lemma classifyFrom_err_bound : ∀ (ls : List String) (st : AggregateResult) (idx : Nat),
    (classifyFrom st idx ls).errors.length ≤ st.errors.length + ls.length := by
  intro ls
  induction ls with
  | nil => intro st idx; simp [classifyFrom]
  | cons l ls ih =>
    intro st idx
    obtain ⟨d1, h1, hlen, _⟩ := processLine_errors st idx l
    have h2 := ih (processLine st idx l) (idx + 1)
    rw [classifyFrom_cons]
    rw [h1, List.length_append] at h2
    simp only [List.length_cons]
    omega

lemma classifyFrom_diag : ∀ (ls : List String) (st : AggregateResult) (idx : Nat),
    ∀ e ∈ (classifyFrom st idx ls).errors,
      e ∈ st.errors ∨ ∃ k, k < ls.length ∧ codeDiagnostic (idx + k) (ls.getD k "") e := by
  intro ls
  induction ls with
  | nil => intro st idx e he; exact Or.inl (by simpa [classifyFrom] using he)
  | cons l ls ih =>
    intro st idx e he
    rw [classifyFrom_cons] at he
    rcases ih (processLine st idx l) (idx + 1) e he with h | ⟨k, hk, hd⟩
    · obtain ⟨d, hd2, _, hall⟩ := processLine_errors st idx l
      rw [hd2] at h
      rcases List.mem_append.mp h with h' | h'
      · exact Or.inl h'
      · exact Or.inr ⟨0, by simp, by simpa using hall e h'⟩
    · refine Or.inr ⟨k + 1, by simp only [List.length_cons]; omega, ?_⟩
      have e1 : idx + (k + 1) = idx + 1 + k := by omega
      rw [e1, List.getD_cons_succ]
      exact hd

/-! The accounting invariant: the grand total is the sum of the parsed item
prices and the valid-line counter counts them. -/

lemma processLine_account (st : AggregateResult) (idx : Nat) (l : String)
    (h1 : st.grandTotal = (st.rows.filterMap rowPrice).sum)
    (h2 : st.validLines = (st.rows.filterMap rowPrice).length) :
    (processLine st idx l).grandTotal = ((processLine st idx l).rows.filterMap rowPrice).sum ∧
    (processLine st idx l).validLines = ((processLine st idx l).rows.filterMap rowPrice).length := by
  rcases processLine_shape st idx l with h | h | h | h |
      ⟨p, v, hLP, hP, n, q, h⟩ | ⟨p, hLP, hP, n, q, h⟩ <;> rw [h]
  · exact ⟨h1, h2⟩
  · exact ⟨h1, h2⟩
  · constructor <;>
      simp [List.filterMap_append, rowPrice, h1, h2]
  · exact ⟨h1, h2⟩
  · constructor <;>
      simp [List.filterMap_append, rowPrice, linePrice_strip hLP, hP, h1, h2]
  · constructor <;>
      simp [List.filterMap_append, rowPrice, linePrice_strip hLP, hP, h1, h2]

lemma classifyFrom_account : ∀ (ls : List String) (st : AggregateResult) (idx : Nat),
    st.grandTotal = (st.rows.filterMap rowPrice).sum →
    st.validLines = (st.rows.filterMap rowPrice).length →
    (classifyFrom st idx ls).grandTotal = ((classifyFrom st idx ls).rows.filterMap rowPrice).sum ∧
    (classifyFrom st idx ls).validLines = ((classifyFrom st idx ls).rows.filterMap rowPrice).length := by
  intro ls
  induction ls with
  | nil => intro st idx h1 h2; exact ⟨h1, h2⟩
  | cons l ls ih =>
    intro st idx h1 h2
    rw [classifyFrom_cons]
    obtain ⟨g1, g2⟩ := processLine_account st idx l h1 h2
    exact ih (processLine st idx l) (idx + 1) g1 g2

/-! The counting invariant of the claim validLines ≤ items ≤ totalLines. -/

lemma processLine_counts (st : AggregateResult) (idx : Nat) (l : String)
    (h : st.validLines ≤ itemCount st.rows ∧ itemCount st.rows ≤ st.totalLines) :
    (processLine st idx l).validLines ≤ itemCount (processLine st idx l).rows ∧
    itemCount (processLine st idx l).rows ≤ (processLine st idx l).totalLines := by
  rcases processLine_shape st idx l with h' | h' | h' | h' |
      ⟨p, v, hLP, hP, n, q, h'⟩ | ⟨p, hLP, hP, n, q, h'⟩ <;> rw [h'] <;>
    constructor <;> simp [itemCount, List.countP_append] <;>
    simp [itemCount] at h <;> omega

lemma classifyFrom_counts : ∀ (ls : List String) (st : AggregateResult) (idx : Nat),
    st.validLines ≤ itemCount st.rows ∧ itemCount st.rows ≤ st.totalLines →
    (classifyFrom st idx ls).validLines ≤ itemCount (classifyFrom st idx ls).rows ∧
    itemCount (classifyFrom st idx ls).rows ≤ (classifyFrom st idx ls).totalLines := by
  intro ls
  induction ls with
  | nil => intro st idx h; exact h
  | cons l ls ih =>
    intro st idx h
    rw [classifyFrom_cons]
    exact ih (processLine st idx l) (idx + 1) (processLine_counts st idx l h)

/-! Every emitted item price is a nonempty run of digits and dots. -/

lemma processLine_prices (st : AggregateResult) (idx : Nat) (l : String)
    (h : ∀ n q p, Row.item n q p ∈ st.rows → p.data ≠ [] ∧ ∀ c ∈ p.data, isDigitDot c = true) :
    ∀ n q p, Row.item n q p ∈ (processLine st idx l).rows →
      p.data ≠ [] ∧ ∀ c ∈ p.data, isDigitDot c = true := by
  rcases processLine_shape st idx l with h' | h' | h' | h' |
      ⟨p0, v, hLP, hP, n0, q0, h'⟩ | ⟨p0, hLP, hP, n0, q0, h'⟩ <;> rw [h'] <;>
    intro n q p hmem
  · exact h n q p hmem
  · exact h n q p hmem
  · rcases List.mem_append.mp hmem with hm | hm
    · exact h n q p hm
    · simp at hm
  · exact h n q p hmem
  · rcases List.mem_append.mp hmem with hm | hm
    · exact h n q p hm
    · rw [List.mem_singleton] at hm
      injection hm with _ _ hp
      subst hp
      rw [linePrice_strip hLP]
      exact linePrice_spec hLP
  · rcases List.mem_append.mp hmem with hm | hm
    · exact h n q p hm
    · rw [List.mem_singleton] at hm
      injection hm with _ _ hp
      subst hp
      rw [linePrice_strip hLP]
      exact linePrice_spec hLP

lemma classifyFrom_prices : ∀ (ls : List String) (st : AggregateResult) (idx : Nat),
    (∀ n q p, Row.item n q p ∈ st.rows → p.data ≠ [] ∧ ∀ c ∈ p.data, isDigitDot c = true) →
    ∀ n q p, Row.item n q p ∈ (classifyFrom st idx ls).rows →
      p.data ≠ [] ∧ ∀ c ∈ p.data, isDigitDot c = true := by
  intro ls
  induction ls with
  | nil => intro st idx h; exact h
  | cons l ls ih =>
    intro st idx h
    rw [classifyFrom_cons]
    exact ih (processLine st idx l) (idx + 1) (processLine_prices st idx l h)

/-! When `float` fails on a digits-and-dots string. -/

lemma pyFloat_none_iff {s : String} (h1 : s.data ≠ [])
    (h2 : ∀ c ∈ s.data, isDigitDot c = true) :
    pyFloat s = none ↔ 1 < s.data.count '.' ∨ ∀ c ∈ s.data, c = '.' := by
  have hne : s.data.isEmpty = false := by
    cases hs : s.data with
    | nil => exact absurd hs h1
    | cons c cs => rfl
  have hall : s.data.all isDigitDot = true := List.all_eq_true.mpr h2
  by_cases hc : s.data.count '.' ≤ 1
  · by_cases hd : s.data.any Char.isDigit = true
    · have hcond : pyFloatOk s.data = true := by
        simp [pyFloatOk, hne, hall, hc, hd]
      simp only [pyFloat, hcond, if_true]
      constructor
      · intro hx; exact absurd hx (by simp)
      · rintro (hx | hx)
        · omega
        · obtain ⟨c, hcm, hcd⟩ := List.any_eq_true.mp hd
          rw [hx c hcm] at hcd
          exact absurd hcd (by decide)
    · have hcond : pyFloatOk s.data = false := by
        simp only [pyFloatOk]
        simp [hd]
      simp only [pyFloat, hcond, if_false]
      constructor
      · intro _
        refine Or.inr fun c hcm => ?_
        have hdd := h2 c hcm
        have hnd : c.isDigit = false := by
          cases hdig : c.isDigit
          · rfl
          · exact absurd (List.any_eq_true.mpr ⟨c, hcm, hdig⟩) hd
        simp only [isDigitDot, hnd, Bool.false_or, decide_eq_true_eq] at hdd
        exact hdd
      · intro _; rfl
  · have hcond : pyFloatOk s.data = false := by
      simp only [pyFloatOk]
      simp [hc]
    simp only [pyFloat, hcond, if_false]
    constructor
    · intro _; exact Or.inl (by omega)
    · intro _; rfl

/-! The claims. -/

/-- C1: on input ["Drinks", "Coke 2pcs $3.00", "Water $1.50"] classification
produces the category row, the two item rows, validLines = 2,
grandTotal = 4.50 and no errors. -/
theorem scenarioA :
    (classify ["Drinks", "Coke 2pcs $3.00", "Water $1.50"]).rows =
      [Row.category "Drinks", Row.item "Coke" "2pcs" "3.00", Row.item "Water" "" "1.50"] ∧
    (classify ["Drinks", "Coke 2pcs $3.00", "Water $1.50"]).validLines = 2 ∧
    (classify ["Drinks", "Coke 2pcs $3.00", "Water $1.50"]).grandTotal = 4.50 ∧
    (classify ["Drinks", "Coke 2pcs $3.00", "Water $1.50"]).errors = [] := by
  have hrows : (classify ["Drinks", "Coke 2pcs $3.00", "Water $1.50"]).rows =
      [Row.category "Drinks", Row.item "Coke" "2pcs" "3.00", Row.item "Water" "" "1.50"] := by
    decide
  refine ⟨hrows, by decide, ?_, by decide⟩
  have hg : (classify ["Drinks", "Coke 2pcs $3.00", "Water $1.50"]).grandTotal =
      ((classify ["Drinks", "Coke 2pcs $3.00", "Water $1.50"]).rows.filterMap rowPrice).sum :=
    (classifyFrom_account ["Drinks", "Coke 2pcs $3.00", "Water $1.50"] initResult 1 rfl rfl).1
  have e300 : ratOfDigits ("3.00" : String).data =
      (digitsVal ['3'] : ℚ) + (digitsVal ['0', '0'] : ℚ) / (10 : ℚ) ^ (2 : ℕ) := rfl
  have e150 : ratOfDigits ("1.50" : String).data =
      (digitsVal ['1'] : ℚ) + (digitsVal ['5', '0'] : ℚ) / (10 : ℚ) ^ (2 : ℕ) := rfl
  have h300 : rowPrice (Row.item "Coke" "2pcs" "3.00") = some 3 := by
    simp only [rowPrice, pyFloat]
    rw [if_pos (by decide : pyFloatOk ("3.00" : String).data = true)]
    congr 1
    rw [e300]
    norm_num [show digitsVal ['3'] = 3 from rfl, show digitsVal ['0', '0'] = 0 from rfl]
  have h150 : rowPrice (Row.item "Water" "" "1.50") = some (3 / 2) := by
    simp only [rowPrice, pyFloat]
    rw [if_pos (by decide : pyFloatOk ("1.50" : String).data = true)]
    congr 1
    rw [e150]
    norm_num [show digitsVal ['1'] = 1 from rfl, show digitsVal ['5', '0'] = 50 from rfl]
  rw [hg, hrows]
  simp only [List.filterMap_cons, List.filterMap_nil, h300, h150,
    show rowPrice (Row.category "Drinks") = none from rfl]
  norm_num

/-- C2: for every input the grand total is the sum of the successfully
parsed item prices, and validLines counts exactly those item rows; an item
row whose price fails to parse stays in `rows` but contributes to
neither. -/
theorem grandTotal_sum (lines : List String) :
    (classify lines).grandTotal = ((classify lines).rows.filterMap rowPrice).sum ∧
    (classify lines).validLines = ((classify lines).rows.filterMap rowPrice).length :=
  classifyFrom_account lines initResult 1 rfl rfl

/-- C3: a non-blank stripped line matching neither pattern and containing
no currency marker yields exactly one category row carrying the stripped
text verbatim, and no error. -/
theorem category_line (st : AggregateResult) (idx : Nat) (line : String)
    (h1 : pyStrip line ≠ "")
    (h2 : matchFull (pyStrip line).data = none)
    (h3 : matchShort (pyStrip line).data = none)
    (h4 : '$' ∉ (pyStrip line).data) :
    processLine st idx line =
      { st with
        totalLines := st.totalLines + 1
        rows := st.rows ++ [Row.category (pyStrip line)] } := by
  have hc : (pyStrip line).data.count '$' = 0 := List.count_eq_zero.mpr h4
  simp [processLine, h1, h2, h3, h4, hc]

/-- Witness for C3 at the line "Chips". -/
theorem category_line_witness :
    processLine initResult 1 "Chips" =
      { initResult with
        totalLines := initResult.totalLines + 1
        rows := initResult.rows ++ [Row.category (pyStrip "Chips")] } :=
  category_line initResult 1 "Chips" (by decide) (by decide) (by decide) (by decide)

/-- C4 (counterexample): on ["Item $abc"] no item row is produced — the
short pattern's price group requires digits or dots, so "abc" cannot be
captured and the claimed row list is wrong. -/
theorem scenarioE_counterexample :
    (classify ["Item $abc"]).rows ≠ [Row.item "Item" "" "abc"] := by decide

/-- C4 (amended): on ["Item $abc"] neither pattern matches, so the line is
recorded as the unable-to-parse diagnostic, with no rows and
validLines = 0. -/
theorem scenarioE_actual :
    (classify ["Item $abc"]).rows = [] ∧
    (classify ["Item $abc"]).errors = ["[Line 1] ❌ 无法解析：Item $abc"] ∧
    (classify ["Item $abc"]).validLines = 0 := by decide

lemma data_take_of_append {a t e : String} (h : e = a ++ t) :
    e.data.take a.data.length = a.data := by
  subst h
  rw [String.data_append, List.take_left]

/-- C5 (counterexample): the diagnostic the code records for
["Snack $1 $2"] is none of the spec's three English templates (the code
interpolates its own message text around the line number). -/
theorem diagnostic_templates_counterexample :
    ¬ ∀ e ∈ (classify ["Snack $1 $2"]).errors, specDiagnosticOk ["Snack $1 $2"] e := by
  intro h
  have he : multiDollarMsg 1 "Snack $1 $2" ∈ (classify ["Snack $1 $2"]).errors := by decide
  rcases h _ he with ⟨j, hj1, hj2, hc⟩
  have hj : j = 1 := by
    simp only [List.length_cons, List.length_nil] at hj2
    omega
  subst hj
  rcases hc with h1 | h1 | ⟨p, h1⟩
  · exact absurd h1 (by decide)
  · exact absurd h1 (by decide)
  · have h5 := data_take_of_append h1
    revert h5
    decide

/-- C5 (amended): every recorded diagnostic belongs to some 1-based line
number within the input and is one of the code's three templates for that
line — the multiple-currency-marker message or the unable-to-parse message
with the stripped line text, or the price-parse-failure message with the
price group extracted from that line. -/
theorem diagnostics_shape (lines : List String) (e : String)
    (he : e ∈ (classify lines).errors) :
    ∃ j, 1 ≤ j ∧ j ≤ lines.length ∧ codeDiagnostic j (lines.getD (j - 1) "") e := by
  rcases classifyFrom_diag lines initResult 1 e he with h | ⟨k, hk, hd⟩
  · exact absurd h (by simp [initResult])
  · refine ⟨k + 1, by omega, by omega, ?_⟩
    have e1 : k + 1 - 1 = k := by omega
    have e2 : 1 + k = k + 1 := by omega
    rw [e1]
    rw [e2] at hd
    exact hd

/-- Witness for C5 (amended) at ["Snack $1 $2"]. -/
theorem diagnostics_shape_witness :
    ∃ j, 1 ≤ j ∧ j ≤ (["Snack $1 $2"] : List String).length ∧
      codeDiagnostic j ((["Snack $1 $2"] : List String).getD (j - 1) "")
        (multiDollarMsg 1 "Snack $1 $2") :=
  diagnostics_shape ["Snack $1 $2"] (multiDollarMsg 1 "Snack $1 $2") (by decide)

/-- C6: a line whose stripped text holds more than one currency marker is
recorded as exactly one diagnostic and yields no row; it bumps totalLines
and leaves validLines and the grand total unchanged, and the outcome does
not depend on the patterns at all. -/
theorem multi_dollar_line (st : AggregateResult) (idx : Nat) (line : String)
    (h : 1 < (pyStrip line).data.count '$') :
    processLine st idx line =
      { st with
        totalLines := st.totalLines + 1
        errors := st.errors ++ [multiDollarMsg idx (pyStrip line)] } := by
  have hne : pyStrip line ≠ "" := by
    intro he
    rw [he] at h
    exact absurd h (by decide)
  simp [processLine, hne, h]

/-- Witness for C6 at "Snack $1 $2". -/
theorem multi_dollar_line_witness :
    processLine initResult 1 "Snack $1 $2" =
      { initResult with
        totalLines := initResult.totalLines + 1
        errors := initResult.errors ++ [multiDollarMsg 1 (pyStrip "Snack $1 $2")] } :=
  multi_dollar_line initResult 1 "Snack $1 $2" (by decide)

/-- C7: totalLines counts every physical line, and a line that strips to
the empty string bumps totalLines only — no row and no error. -/
theorem totalLines_count (lines : List String) (st : AggregateResult) (idx : Nat)
    (line : String) (h : pyStrip line = "") :
    (classify lines).totalLines = lines.length ∧
    processLine st idx line = { st with totalLines := st.totalLines + 1 } := by
  constructor
  · have h2 := classifyFrom_totalLines lines initResult 1
    simpa [classify, initResult] using h2
  · simp [processLine, h]

/-- Witness for C7 with a blankish second line. -/
theorem totalLines_count_witness :
    (classify ["a", " "]).totalLines = (["a", " "] : List String).length ∧
    processLine initResult 1 " " = { initResult with totalLines := initResult.totalLines + 1 } :=
  totalLines_count ["a", " "] initResult 1 " " (by decide)

/-- C8: validLines never exceeds the number of item rows, which never
exceeds totalLines. -/
theorem counts_invariant (lines : List String) :
    (classify lines).validLines ≤ itemCount (classify lines).rows ∧
    itemCount (classify lines).rows ≤ (classify lines).totalLines :=
  classifyFrom_counts lines initResult 1 (by decide)

/-- C9: classification is a total fold — extending the input only extends
the rows and the error list (earlier results are never revoked, so a
malformed line cannot abort the run), and each line contributes at most
one diagnostic. -/
theorem classify_no_abort (ls ex : List String) :
    (∃ d, (classify (ls ++ ex)).rows = (classify ls).rows ++ d) ∧
    (∃ d, (classify (ls ++ ex)).errors = (classify ls).errors ++ d) ∧
    (classify ls).errors.length ≤ (classify ls).totalLines := by
  have happ : classify (ls ++ ex) = classifyFrom (classify ls) (1 + ls.length) ex :=
    classifyFrom_append ls ex initResult 1
  refine ⟨?_, ?_, ?_⟩
  · rw [happ]
    exact classifyFrom_rows ex (classify ls) (1 + ls.length)
  · rw [happ]
    exact classifyFrom_errs ex (classify ls) (1 + ls.length)
  · have h1 := classifyFrom_err_bound ls initResult 1
    have h2 := classifyFrom_totalLines ls initResult 1
    rw [show initResult.errors.length = 0 from rfl] at h1
    rw [show initResult.totalLines = 0 from rfl] at h2
    rw [show classify ls = classifyFrom initResult 1 ls from rfl]
    omega

/-- C10: every item row's price is a nonempty string of digits and dots
(the capture class of the price group), and on such strings the modelled
float parse fails exactly for multiple dots or dots alone. -/
theorem item_prices (lines : List String) :
    (∀ n q p, Row.item n q p ∈ (classify lines).rows →
      p.data ≠ [] ∧ ∀ c ∈ p.data, isDigitDot c = true) ∧
    (∀ s : String, s.data ≠ [] → (∀ c ∈ s.data, isDigitDot c = true) →
      (pyFloat s = none ↔ 1 < s.data.count '.' ∨ ∀ c ∈ s.data, c = '.')) := by
  constructor
  · exact classifyFrom_prices lines initResult 1 (by simp [initResult])
  · intro s hs hall
    exact pyFloat_none_iff hs hall

/-- Witness for C10 at the row produced from "x $1.2.3". -/
theorem item_prices_witness :
    ("1.2.3" : String).data ≠ [] ∧ ∀ c ∈ ("1.2.3" : String).data, isDigitDot c = true :=
  (item_prices ["x $1.2.3"]).1 "x" "" "1.2.3" (by decide)

end YaW
